import Mathlib

/-!
Verification of `extract_with_structure_v2.py`, a tool that extracts Lua
scripts from a Roblox `.rbxlx` (XML) place file into a directory tree.

The embedding models:
  * the parsed XML tree of `Item` elements (class attribute, optional
    `Name` string property, optional `Source` protected string, children);
  * `clean_name` (filename sanitization);
  * `find_parent_service` (the ancestry resolver): the upward walk over
    the parent map, modelled as a walk along the explicit chain of
    ancestors of a node (node first, root excluded), which is exactly the
    information the Python parent map provides;
  * `extract_scripts_with_structure` (the path materializer): a fold over
    the preorder item traversal (`root.iter("Item")`), threading an
    explicit filesystem state (written files, created directories,
    extraction records, the `folder_structure` set).

Filesystem paths are modelled as lists of path segments; e.g. the string
path `src/client/Move.lua` is `["src", "client", "Move.lua"]`.
-/

namespace RobloxExtract

/-- An `Item` element of the place file: `class` attribute, the optional
`Name` string property, the optional `Source` protected string (only
meaningful on script classes), and the child `Item`s in document order. -/
inductive Item : Type where
  | mk (cls : String) (name : Option String) (source : Option String)
       (children : List Item)

def Item.cls : Item → String
  | .mk c _ _ _ => c

def Item.name : Item → Option String
  | .mk _ n _ _ => n

def Item.source : Item → Option String
  | .mk _ _ s _ => s

def Item.children : Item → List Item
  | .mk _ _ _ ch => ch

/-- The name of an item as the Python code observes it:
`name_elem is not None and name_elem.text` is falsy both when the
property is missing and when its text is empty. -/
def itemName (it : Item) : Option String :=
  match it.name with
  | some s => if s = "" then none else some s
  | none => none

/-- The source text of an item as the Python code observes it:
`source_elem is not None and source_elem.text` is falsy both when the
property is missing and when its text is empty. -/
def itemSource (it : Item) : Option String :=
  match it.source with
  | some s => if s = "" then none else some s
  | none => none

/-- `service_names` of `find_parent_service`. -/
def serviceNames : List String :=
  ["ServerScriptService", "ServerStorage", "ReplicatedStorage",
   "StarterPlayer", "StarterGui", "Workspace"]

/-- The upward walk of `find_parent_service`: `chain` is the node itself
followed by its proper ancestors, bottom-up, excluding the tree root
(exactly the nodes visited via `parent_map` until `current == root`);
`path` is the accumulated list of collected names (bottom-up). On a
service match it returns the service name and
`list(reversed(path[:-1]))`. -/
def findParentServiceAux : List Item → List String → Option String × List String
  | [], _path => (none, [])
  | current :: ancestors, path =>
    match itemName current with
    | some item_name =>
      let path' := path ++ [item_name]
      if item_name ∈ serviceNames then
        (some item_name, path'.dropLast.reverse)
      else
        findParentServiceAux ancestors path'
    | none => findParentServiceAux ancestors path

/-- `find_parent_service(element, root)`, with the element-to-parent map
replaced by the explicit ancestor chain of the element (element first,
root excluded). -/
def findParentService (chain : List Item) : Option String × List String :=
  findParentServiceAux chain []

/-- The characters `< > : " / \ | ? *` removed by `clean_name`. -/
def invalidChars : List Char :=
  ['<', '>', ':', '"', '/', '\\', '|', '?', '*']

/-- One character of the `re.sub` substitution in `clean_name`. -/
def cleanChar (c : Char) : Char :=
  if c ∈ invalidChars then '_' else c

/-- `clean_name(name)`: the character-class substitution replaces each
invalid character with `_` and leaves every other character unchanged. -/
def clean_name (name : String) : String :=
  String.mk (name.data.map cleanChar)

/-- The classes treated as scripts:
`item_class in [Script, LocalScript, ModuleScript]`. -/
def scriptClasses : List String :=
  ["Script", "LocalScript", "ModuleScript"]

/-- `service_mapping`, with the target directory strings (`src/server`
etc.) as segment lists. -/
def serviceMapping : List (String × List String) :=
  [("ServerScriptService", ["src", "server"]),
   ("ServerStorage", ["src", "server"]),
   ("ReplicatedStorage", ["src", "shared"]),
   ("StarterPlayer", ["src", "client"]),
   ("StarterGui", ["src", "client"]),
   ("Workspace", ["src", "workspace"])]

/-- One extraction record appended to `scripts_found`. The
`full_path` display path (the slash-joined `[service_name] +
path_from_service`) is kept as its segments. -/
structure ScriptRecord where
  name : String
  type : String
  path : List String
  service : String
  full_path : List String
deriving DecidableEq

/-- The filesystem and bookkeeping state threaded through
`extract_scripts_with_structure`: the files written so far (path and
contents), the set of directories created so far (`os.makedirs`), the
`scripts_found` list and the `folder_structure` set. -/
structure ExtractState where
  fsFiles : List (List String × String)
  fsDirs : List (List String)
  scripts_found : List ScriptRecord
  folder_structure : List (List String)
deriving DecidableEq

/-- All nonempty prefixes of a path: the directories that
`os.makedirs(path, exist_ok=True)` guarantees to exist. -/
def prefixesOf (p : List String) : List (List String) :=
  (List.range p.length).map (fun k => p.take (k + 1))

/-- `os.makedirs(p, exist_ok=True)`: afterwards every nonempty prefix of
`p` is a directory. -/
def makedirs (st : ExtractState) (p : List String) : ExtractState :=
  { st with fsDirs := prefixesOf p ++ st.fsDirs }

/-- `os.path.exists(p)`: `p` was written as a file or created as a
directory earlier in this run (the run starts from a freshly cleaned
output root, so only paths this run created exist). -/
def pathExists (st : ExtractState) (p : List String) : Prop :=
  p ∈ st.fsFiles.map Prod.fst ∨ p ∈ st.fsDirs

instance (st : ExtractState) (p : List String) : Decidable (pathExists st p) := by
  unfold pathExists
  infer_instance

/-- Little-endian decimal digits of `n`, with explicit fuel (any fuel
`≥ n` is enough). -/
def decDigits : Nat → Nat → List Nat
  | 0, _ => []
  | _ + 1, 0 => []
  | fuel + 1, n + 1 => ((n + 1) % 10) :: decDigits fuel ((n + 1) / 10)

/-- The decimal numeral of `n`, as interpolated by the f-string
`f"{base_path}_{counter}.lua"`. -/
def decString (n : Nat) : String :=
  String.mk (((decDigits n n).map (fun d => Char.ofNat (48 + d))).reverse)

/-- The collision candidate `f"{base_path}_{counter}.lua"`, where
`base_path` is `dir ++ [stem]` (the file path with `.lua` stripped). -/
def candidatePath (dir : List String) (stem : String) (counter : Nat) : List String :=
  dir ++ [stem ++ "_" ++ decString counter ++ ".lua"]

/-- The `while os.path.exists(f"{base_path}_{counter}.lua"): counter += 1`
loop, returning the final counter. The fuel bounds the number of
iterations; with fuel exceeding the number of existing paths the loop
always stops at a free candidate. -/
def suffixCounter (st : ExtractState) (dir : List String) (stem : String) :
    Nat → Nat → Nat
  | 0, counter => counter
  | fuel + 1, counter =>
    if pathExists st (candidatePath dir stem counter) then
      suffixCounter st dir stem fuel (counter + 1)
    else
      counter

/-- Lines 130-136: if the computed path already exists, strip `.lua`
(the path is always `dir ++ [stem ++ ".lua"]`), then search counters
`1, 2, …` for the first free candidate. -/
def resolveCollision (st : ExtractState) (dir : List String) (stem : String) :
    List String :=
  let file_path := dir ++ [stem ++ ".lua"]
  if pathExists st file_path then
    candidatePath dir stem
      (suffixCounter st dir stem (st.fsFiles.length + st.fsDirs.length + 1) 1)
  else
    file_path

/-- Lines 106-113: under `StarterPlayer` a leading
`StarterPlayerScripts` segment is dropped, a leading
`StarterCharacterScripts` segment is kept (`pass`); any other first
segment, any other service, or an empty path is left unchanged. -/
def rewriteStarterPlayer (service_name : String) (path_from_service : List String) :
    List String :=
  match path_from_service with
  | [] => []
  | p0 :: rest =>
    if service_name = "StarterPlayer" then
      if p0 = "StarterPlayerScripts" then rest
      else p0 :: rest
    else p0 :: rest

/-- Lines 115-128: compute the directory part and the file stem of the
script's target path (the file path is `dir ++ [stem ++ ".lua"]`),
creating the subfolder chain and recording it in `folder_structure` when
the script sits in a subfolder structure. The Python expression `path_from_service[-1]`
is `getLastD` (the branch guarantees nonemptiness). -/
def scriptTarget (st : ExtractState) (base_dir : List String)
    (item_name : String) (pfs : List String) :
    ExtractState × List String × String :=
  match pfs with
  | [] => (st, base_dir, clean_name item_name)
  | _ :: _ =>
    let folder_parts := pfs.dropLast.map clean_name
    match folder_parts with
    | [] => (st, base_dir, clean_name (pfs.getLastD ""))
    | _ :: _ =>
      let folder_path := base_dir ++ folder_parts
      let st' := makedirs st folder_path
      let st'' :=
        { st' with folder_structure := st'.folder_structure ++ [folder_path] }
      (st'', folder_path, clean_name (pfs.getLastD ""))

/-- Lines 130-149: resolve the collision, create the missing parent
directories (`os.makedirs(os.path.dirname(file_path))`), write the
source text verbatim to the resolved path and append the extraction
record built from the resolved path. -/
def writeFilePhase (st1 : ExtractState) (dir : List String) (stem : String)
    (src : String) (mkRec : List String → ScriptRecord) : ExtractState :=
  let file_path := resolveCollision st1 dir stem
  let st2 := makedirs st1 file_path.dropLast
  let st3 := { st2 with fsFiles := st2.fsFiles ++ [(file_path, src)] }
  { st3 with scripts_found := st3.scripts_found ++ [mkRec file_path] }

/-- Lines 106-149: the whole script branch for a script item with
non-empty source: rewrite the path, compute the target, resolve
collisions, create the missing directories, write the source verbatim
and append the extraction record. -/
def writeScript (st : ExtractState) (item_name item_cls service_name : String)
    (base_dir path_from_service : List String) (src : String) : ExtractState :=
  let pfs := rewriteStarterPlayer service_name path_from_service
  let td := scriptTarget st base_dir item_name pfs
  writeFilePhase td.1 td.2.1 td.2.2 src
    (fun file_path =>
      { name := item_name, type := item_cls, path := file_path,
        service := service_name, full_path := service_name :: pfs })

/-- Lines 154-159: the Folder branch; note it uses the unrewritten
`path_from_service`. -/
def processFolder (st : ExtractState) (base_dir path_from_service : List String) :
    ExtractState :=
  match path_from_service with
  | [] => st
  | _ :: _ =>
    let folder_path := base_dir ++ path_from_service.map clean_name
    let st' := makedirs st folder_path
    { st' with
        folder_structure := st'.folder_structure ++ [folder_path] }

/-- The body of the `for item in root.iter("Item")` loop (lines 84-159)
for one item, given the ancestor chain of the item (item first, root
excluded). -/
def processItem (st : ExtractState) (item : Item) (chain : List Item) :
    ExtractState :=
  match itemName item with
  | none => st
  | some item_name =>
    match findParentService chain with
    | (none, _) => st
    | (some service_name, path_from_service) =>
      match serviceMapping.lookup service_name with
      | none => st
      | some base_dir =>
        if item.cls ∈ scriptClasses then
          match itemSource item with
          | none => st
          | some src =>
            writeScript st item_name item.cls service_name base_dir
              path_from_service src
        else if item.cls = "Folder" then
          processFolder st base_dir path_from_service
        else st

mutual

/-- `root.iter("Item")` in document (preorder) order, paired with each
the ancestor chain of each item (item first, root excluded). -/
def iterItems : Item → List Item → List (Item × List Item)
  | .mk c n s ch, up =>
    (Item.mk c n s ch, Item.mk c n s ch :: up) ::
      iterItemsList ch (Item.mk c n s ch :: up)

def iterItemsList : List Item → List Item → List (Item × List Item)
  | [], _ => []
  | x :: xs, up => iterItems x up ++ iterItemsList xs up

end

/-- The state after lines 53-62: the output root has been cleaned and the
three base directories `src/server`, `src/client` and `src/shared` have
been created (note: `src/workspace` is not pre-created). -/
def initState : ExtractState :=
  makedirs (makedirs (makedirs ⟨[], [], [], []⟩ ["src", "server"])
    ["src", "client"]) ["src", "shared"]

/-- `extract_scripts_with_structure` on a parsed tree whose root element
has the given top-level `Item` children: fold the loop body over the
preorder traversal. -/
def extractRun (tops : List Item) : ExtractState :=
  (iterItemsList tops []).foldl (fun st ic => processItem st ic.1 ic.2) initState

/-- Cost model for parent-map constructions: the map of
`element -> parent` is built once in `extract_scripts_with_structure`
(lines 77-81) and rebuilt inside `find_parent_service` (lines 22-26) on
every invocation, i.e. once for every named item reaching line 94. -/
def resolverMapBuilds (tops : List Item) : Nat :=
  1 + ((iterItemsList tops []).filter (fun ic => (itemName ic.1).isSome)).length

/-- The four base-directory targets of `service_mapping`. -/
def baseDirs : List (List String) :=
  [["src", "server"], ["src", "client"], ["src", "shared"], ["src", "workspace"]]

/-- The directories guaranteed by lines 59-62 before the traversal:
prefixes of the three pre-created base directories. -/
def baseSeeded : List (List String) :=
  prefixesOf ["src", "server"] ++ prefixesOf ["src", "client"] ++
    prefixesOf ["src", "shared"]

/-- Directories exist exactly on demand: every created directory is a
pre-seeded base directory, an ancestor of a written script file, or an
ancestor of a recorded Folder-instance path; conversely all those
ancestors have been created. -/
def dirsOnDemand (st : ExtractState) : Prop :=
  (∀ d ∈ st.fsDirs,
      d ∈ baseSeeded ∨
      (∃ fp src, (fp, src) ∈ st.fsFiles ∧ d ∈ prefixesOf fp.dropLast) ∨
      (∃ f ∈ st.folder_structure, d ∈ prefixesOf f)) ∧
  (∀ fp src, (fp, src) ∈ st.fsFiles → ∀ d ∈ prefixesOf fp.dropLast, d ∈ st.fsDirs) ∧
  (∀ f ∈ st.folder_structure, ∀ d ∈ prefixesOf f, d ∈ st.fsDirs)

/-- The value of a little-endian decimal digit list (used to show that
`decString` is injective on positive counters). -/
def decVal : List Nat → Nat :=
  List.foldr (fun d acc => d + 10 * acc) 0

/-! Concrete place-file fragments used as counterexamples and witnesses. -/

/-- A `Part` named `P` (not a script, not a folder). -/
def c1Part : Item := .mk "Part" (some "P") none []

/-- A `Workspace` service item containing `c1Part`. -/
def c1Ws : Item := .mk "Workspace" (some "Workspace") none [c1Part]

/-- A `ModuleScript` named `M`. -/
def c1M : Item := .mk "ModuleScript" (some "M") (some "return 1") []

/-- A `Folder` named `Sub` containing `c1M`. -/
def c1Sub : Item := .mk "Folder" (some "Sub") none [c1M]

/-- A `ReplicatedStorage` service item containing `c1Sub`. -/
def c1Rs : Item := .mk "ReplicatedStorage" (some "ReplicatedStorage") none [c1Sub]

/-- A `Script` named `S`. -/
def c10S : Item := .mk "Script" (some "S") (some "x") []

/-- A plain `Folder` merely named `ReplicatedStorage`, nested inside
`ServerStorage`. -/
def c10Fake : Item := .mk "Folder" (some "ReplicatedStorage") none [c10S]

/-- A `ServerStorage` service item containing `c10Fake`. -/
def c10Ss : Item := .mk "ServerStorage" (some "ServerStorage") none [c10Fake]

/-- A `Workspace` service item with no children. -/
def c10Ws : Item := .mk "Workspace" (some "Workspace") none []

/-- A `ModuleScript` named `Utils` with source `-- a`. -/
def c2U : Item := .mk "ModuleScript" (some "Utils") (some "-- a") []

/-- A `ReplicatedStorage` service item containing `c2U`. -/
def c2Rs : Item := .mk "ReplicatedStorage" (some "ReplicatedStorage") none [c2U]

/-- First `ModuleScript` named `Utils` (source `-- a`). -/
def c3U1 : Item := .mk "ModuleScript" (some "Utils") (some "-- a") []

/-- Second `ModuleScript` also named `Utils` (source `-- b`). -/
def c3U2 : Item := .mk "ModuleScript" (some "Utils") (some "-- b") []

/-- A `ReplicatedStorage` service item containing the two colliding
`Utils` modules. -/
def c3Rs : Item :=
  .mk "ReplicatedStorage" (some "ReplicatedStorage") none [c3U1, c3U2]

/-- A `LocalScript` named `Move` with source `-- move`. -/
def c4Move : Item := .mk "LocalScript" (some "Move") (some "-- move") []

/-- The `StarterPlayerScripts` container holding `c4Move`. -/
def c4Sps : Item :=
  .mk "StarterPlayerScripts" (some "StarterPlayerScripts") none [c4Move]

/-- A `StarterPlayer` service item containing `c4Sps`. -/
def c4Sp : Item := .mk "StarterPlayer" (some "StarterPlayer") none [c4Sps]

/-- A `Script` named `Init` with source `-- init`. -/
def c4Init : Item := .mk "Script" (some "Init") (some "-- init") []

/-- The `StarterCharacterScripts` container holding `c4Init`. -/
def c4Scs : Item :=
  .mk "StarterCharacterScripts" (some "StarterCharacterScripts") none [c4Init]

/-- A `StarterPlayer` service item containing `c4Scs`. -/
def c4Sp2 : Item := .mk "StarterPlayer" (some "StarterPlayer") none [c4Scs]

/-- A `Script` named `S` with source `x`. -/
def c6S : Item := .mk "Script" (some "S") (some "x") []

/-- A `Model` named `M` (neither a script class nor a Folder) holding
`c6S`. -/
def c6M : Item := .mk "Model" (some "M") none [c6S]

/-- A `Workspace` service item containing `c6M`. -/
def c6Ws : Item := .mk "Workspace" (some "Workspace") none [c6M]

/-- A `Script` named `E` with an empty `Source` property. -/
def c7E : Item := .mk "Script" (some "E") (some "") []

/-- A `ServerScriptService` service item containing `c7E`. -/
def c7Sss : Item := .mk "ServerScriptService" (some "ServerScriptService") none [c7E]

/-- A `Script` named `Boot` with source `print(1)`. -/
def c8Boot : Item := .mk "Script" (some "Boot") (some "print(1)") []

/-- A `ServerScriptService` service item containing `c8Boot`: a run with
no content under `Workspace`. -/
def c8Sss : Item :=
  .mk "ServerScriptService" (some "ServerScriptService") none [c8Boot]

/-- A `Folder` named `B`. -/
def c9B : Item := .mk "Folder" (some "B") none []

/-- A `Folder` named `A` containing `c9B`: a tree with two named items. -/
def c9A : Item := .mk "Folder" (some "A") none [c9B]

/-! ## Resolver lemmas -/

/-- Characterization of the upward walk: if the bottom-up list of
collected names splits as `pre ++ svc :: post` with `pre` service-free
and `svc` a service name, the walk stops at `svc` and returns the
accumulated names below it, reversed. -/
lemma findParentServiceAux_spec (chain : List Item) :
    ∀ (acc pre : List String) (svc : String) (post : List String),
      chain.filterMap itemName = pre ++ svc :: post →
      (∀ x ∈ pre, x ∉ serviceNames) → svc ∈ serviceNames →
      findParentServiceAux chain acc = (some svc, (acc ++ pre).reverse) := by
  induction chain with
  | nil =>
    intro acc pre svc post h _hpre _hsvc
    rw [List.filterMap_nil] at h
    cases pre <;> simp at h
  | cons current ancestors ih =>
    intro acc pre svc post h hpre hsvc
    rcases hn : itemName current with _ | n
    · rw [List.filterMap_cons_none hn] at h
      simpa [findParentServiceAux, hn] using ih acc pre svc post h hpre hsvc
    · rw [List.filterMap_cons_some hn] at h
      cases pre with
      | nil =>
        simp only [List.nil_append, List.cons.injEq] at h
        obtain ⟨rfl, -⟩ := h
        simp [findParentServiceAux, hn, hsvc]
      | cons q pre' =>
        simp only [List.cons_append, List.cons.injEq] at h
        obtain ⟨rfl, hrest⟩ := h
        have hnmem : n ∉ serviceNames := hpre n (List.mem_cons_self _ _)
        have hrec := ih (acc ++ [n]) pre' svc post hrest
          (fun x hx => hpre x (List.mem_cons_of_mem _ hx)) hsvc
        simp only [findParentServiceAux, hn, if_neg hnmem]
        rw [hrec]
        simp

/-- `findParentService` version of `findParentServiceAux_spec`. -/
lemma findParentService_spec (chain : List Item) (pre : List String) (svc : String)
    (post : List String) (h : chain.filterMap itemName = pre ++ svc :: post)
    (hpre : ∀ x ∈ pre, x ∉ serviceNames) (hsvc : svc ∈ serviceNames) :
    findParentService chain = (some svc, pre.reverse) := by
  have := findParentServiceAux_spec chain [] pre svc post h hpre hsvc
  simpa [findParentService] using this

/-- A successful walk only ever returns a recognized service name. -/
lemma findParentServiceAux_mem (chain : List Item) :
    ∀ (acc : List String) (svc : String) (p : List String),
      findParentServiceAux chain acc = (some svc, p) → svc ∈ serviceNames := by
  induction chain with
  | nil =>
    intro acc svc p h
    simp [findParentServiceAux] at h
  | cons current ancestors ih =>
    intro acc svc p h
    rcases hn : itemName current with _ | n
    · simp only [findParentServiceAux, hn] at h
      exact ih _ _ _ h
    · simp only [findParentServiceAux, hn] at h
      by_cases hmem : n ∈ serviceNames
      · rw [if_pos hmem] at h
        obtain ⟨h1, -⟩ := Prod.mk.inj h
        obtain rfl := Option.some.inj h1
        exact hmem
      · rw [if_neg hmem] at h
        exact ih _ _ _ h

/-- A successful walk only ever returns a recognized service name
(chain-level). -/
lemma findParentService_mem {chain : List Item} {svc : String} {p : List String}
    (h : findParentService chain = (some svc, p)) : svc ∈ serviceNames :=
  findParentServiceAux_mem chain [] svc p h

/-- On success the returned path ends with the reversed accumulator. -/
lemma findParentServiceAux_ends (chain : List Item) :
    ∀ (acc : List String) (svc : String) (p : List String),
      findParentServiceAux chain acc = (some svc, p) →
      ∃ mid, p = mid ++ acc.reverse := by
  induction chain with
  | nil =>
    intro acc svc p h
    simp [findParentServiceAux] at h
  | cons current ancestors ih =>
    intro acc svc p h
    rcases hn : itemName current with _ | n
    · simp only [findParentServiceAux, hn] at h
      exact ih _ _ _ h
    · simp only [findParentServiceAux, hn] at h
      by_cases hmem : n ∈ serviceNames
      · rw [if_pos hmem] at h
        obtain ⟨-, h2⟩ := Prod.mk.inj h
        exact ⟨[], by simp [← h2]⟩
      · rw [if_neg hmem] at h
        obtain ⟨mid, hmid⟩ := ih _ _ _ h
        refine ⟨mid ++ [n], ?_⟩
        simpa [List.append_assoc] using hmid

/-- Each recognized service has a base directory in the mapping, and it
is one of the four base directories. -/
lemma serviceMapping_lookup_mem :
    ∀ s ∈ serviceNames, (serviceMapping.lookup s).isSome = true ∧
      (serviceMapping.lookup s).getD [] ∈ baseDirs := by decide

/-- Existence form of `serviceMapping_lookup_mem`. -/
lemma serviceMapping_lookup_exists {s : String} (hs : s ∈ serviceNames) :
    ∃ base, serviceMapping.lookup s = some base ∧ base ∈ baseDirs := by
  obtain ⟨h1, h2⟩ := serviceMapping_lookup_mem s hs
  rcases hl : serviceMapping.lookup s with _ | base
  · rw [hl] at h1
    cases h1
  · refine ⟨base, rfl, ?_⟩
    rw [hl] at h2
    simpa using h2

/-! ## Sanitization (C5) -/

/-- `cleanChar` is idempotent, because `_` is not itself invalid. -/
lemma cleanChar_idem (c : Char) : cleanChar (cleanChar c) = cleanChar c := by
  by_cases h : c ∈ invalidChars
  · have h2 : ('_' : Char) ∉ invalidChars := by decide
    simp [cleanChar, h, h2]
  · simp [cleanChar, h]

/-- C5: sanitization (`clean_name`) is total and idempotent: for every
input string it keeps the length, replaces each of the characters
`< > : " / \ | ? *` by `_` and leaves every other character (including
non-ASCII) untouched, and applying it twice equals applying it once. -/
theorem clean_name_total_idempotent :
    ∀ s : String,
      (clean_name s).data.length = s.data.length ∧
      (∀ i : Nat, (clean_name s).data[i]? =
        (s.data[i]?).map (fun c => if c ∈ invalidChars then '_' else c)) ∧
      clean_name (clean_name s) = clean_name s := by
  intro s
  refine ⟨by simp [clean_name], ?_, ?_⟩
  · intro i
    show (s.data.map cleanChar)[i]? = _
    rw [List.getElem?_map]
    rfl
  · show String.mk ((s.data.map cleanChar).map cleanChar)
        = String.mk (s.data.map cleanChar)
    congr 1
    rw [List.map_map]
    exact List.map_congr_left (fun a _ => cleanChar_idem a)

/-! ## The Ancestry Resolver result (C1, C10) -/

/-- C1 counterexample: for the `Part` named `P` directly under
`Workspace` the claim demands the ordered sequence of ancestor names
from the service (exclusive) down to but EXCLUDING the node, i.e. `[]`;
the code returns `["P"]`, which includes the name of the node itself. -/
theorem find_parent_service_includes_node :
    findParentService [c1Part, c1Ws] = (some "Workspace", ["P"]) ∧
    findParentService [c1Part, c1Ws] ≠ (some "Workspace", ([] : List String)) := by
  constructor
  · decide
  · decide

/-- C1 (amended): for every node whose upward walk meets a recognized
service name, `find_parent_service` returns that service and the ordered
sequence of collected names from the service (exclusive) down to AND
INCLUDING the node itself, in top-down order: the bottom-up service-free
collected names `pre` (which begin with the name of the node) come back
reversed; in particular, when the node is named `n` (and is not itself a
service), the returned sequence ends with `n`. -/
theorem find_parent_service_returns_path :
    (∀ (chain : List Item) (pre : List String) (svc : String) (post : List String),
        chain.filterMap itemName = pre ++ svc :: post →
        (∀ x ∈ pre, x ∉ serviceNames) → svc ∈ serviceNames →
        findParentService chain = (some svc, pre.reverse)) ∧
    (∀ (it : Item) (ups : List Item) (n svc : String) (p : List String),
        itemName it = some n → n ∉ serviceNames →
        findParentService (it :: ups) = (some svc, p) →
        p.getLast? = some n) := by
  constructor
  · exact findParentService_spec
  · intro it ups n svc p hn hns h
    unfold findParentService at h
    simp only [findParentServiceAux, hn, if_neg hns] at h
    obtain ⟨mid, rfl⟩ := findParentServiceAux_ends ups [n] svc p h
    simp

/-- C1 witness: a `ModuleScript` named `M` inside a `Folder` named `Sub`
under `ReplicatedStorage` resolves to the service and the top-down path
`["Sub", "M"]`, whose last element is the name of the node itself. -/
theorem find_parent_service_returns_path_witness :
    findParentService [c1M, c1Sub, c1Rs] = (some "ReplicatedStorage", ["Sub", "M"]) ∧
    (["Sub", "M"] : List String).getLast? = some "M" := by
  constructor
  · exact find_parent_service_returns_path.1 [c1M, c1Sub, c1Rs] ["M", "Sub"]
      "ReplicatedStorage" [] (by decide) (by decide) (by decide)
  · exact find_parent_service_returns_path.2 c1M [c1Sub, c1Rs] "M"
      "ReplicatedStorage" ["Sub", "M"] (by decide) (by decide)
      (find_parent_service_returns_path.1 [c1M, c1Sub, c1Rs] ["M", "Sub"]
        "ReplicatedStorage" [] (by decide) (by decide) (by decide))

/-- C10: the resolver classifies a node by the NEAREST ancestor-or-self
whose name equals a recognized service name, wherever it sits: whenever
the bottom-up collected names split as a service-free `pre` followed by
a service name `svc` (with arbitrary names above, `post`), resolution
returns `svc`; and a node whose own name is a service name resolves to
itself with an empty ancestor path. -/
theorem nearest_service_ancestor_wins :
    (∀ (chain : List Item) (pre : List String) (svc : String) (post : List String),
        chain.filterMap itemName = pre ++ svc :: post →
        (∀ x ∈ pre, x ∉ serviceNames) → svc ∈ serviceNames →
        (findParentService chain).1 = some svc) ∧
    (∀ (it : Item) (ups : List Item) (n : String),
        itemName it = some n → n ∈ serviceNames →
        findParentService (it :: ups) = (some n, [])) := by
  constructor
  · intro chain pre svc post h hpre hsvc
    rw [findParentService_spec chain pre svc post h hpre hsvc]
  · intro it ups n hn hsvc
    unfold findParentService
    simp [findParentServiceAux, hn, hsvc]

/-- C10 witness: a plain `Folder` merely named `ReplicatedStorage`
nested inside `ServerStorage` claims the script `S` below it (resolution
returns `ReplicatedStorage`, not the genuine `ServerStorage` above); and
a lone `Workspace` item resolves to itself with an empty path. -/
theorem nearest_service_ancestor_wins_witness :
    (findParentService [c10S, c10Fake, c10Ss]).1 = some "ReplicatedStorage" ∧
    findParentService [c10Ws] = (some "Workspace", []) := by
  constructor
  · exact nearest_service_ancestor_wins.1 [c10S, c10Fake, c10Ss] ["S"]
      "ReplicatedStorage" ["ServerStorage"] (by decide) (by decide) (by decide)
  · exact nearest_service_ancestor_wins.2 c10Ws [] "Workspace" (by decide) (by decide)

/-! ## Resolution gaps (C7) -/

/-- C7: an item lacking a (non-empty) `Name`, an item whose walk reaches
the root without a service match, and a script-class item whose `Source`
is absent or empty are all silently skipped: the loop body leaves the
state untouched (no file, no directory, no record in the summary
counts), and this is not an error. -/
theorem resolution_gaps_skipped (st : ExtractState) (it : Item) (ch : List Item)
    (h : itemName it = none ∨ (findParentService ch).1 = none ∨
         (it.cls ∈ scriptClasses ∧ itemSource it = none)) :
    processItem st it ch = st := by
  rcases hn : itemName it with _ | n
  · simp [processItem, hn]
  · rcases hfp : findParentService ch with ⟨o, p⟩
    rcases o with _ | svc
    · simp [processItem, hn, hfp]
    · rcases h with h | h | ⟨hcls, hsrc⟩
      · rw [hn] at h
        exact absurd h (by simp)
      · rw [hfp] at h
        exact absurd h (by simp)
      · rcases hlk : serviceMapping.lookup svc with _ | base
        · simp [processItem, hn, hfp, hlk]
        · simp [processItem, hn, hfp, hlk, hcls, hsrc]

/-- C7 witness: the `Script` named `E` with an empty `Source` under
`ServerScriptService` is skipped: the state is unchanged. -/
theorem resolution_gaps_skipped_witness :
    processItem initState c7E [c7E, c7Sss] = initState :=
  resolution_gaps_skipped initState c7E [c7E, c7Sss]
    (Or.inr (Or.inr ⟨by decide, by decide⟩))

/-! ## Parent-map precomputation (C9) -/

/-- C9 (code bug): the element-to-parent map is NOT precomputed once and
reused; `find_parent_service` rebuilds it on every call (its lines
22-26), once per named item, while the map built up front at lines 77-81
is never read. On a tree with two named items (`A` containing `B`) the
run performs 3 map constructions, not the single precomputation the
claim describes. -/
theorem parent_map_rebuilt_per_node :
    resolverMapBuilds [c9A] = 3 ∧ resolverMapBuilds [c9A] ≠ 1 := by decide

/-! ## Decimal numerals -/

/-- Every produced decimal digit is below ten. -/
lemma decDigits_lt_ten : ∀ (fuel n : Nat), ∀ d ∈ decDigits fuel n, d < 10 := by
  intro fuel
  induction fuel with
  | zero =>
    intro n d hd
    simp [decDigits] at hd
  | succ fuel ih =>
    intro n d hd
    match n with
    | 0 => simp [decDigits] at hd
    | m + 1 =>
      simp only [decDigits, List.mem_cons] at hd
      rcases hd with rfl | hd
      · exact Nat.mod_lt _ (by omega)
      · exact ih _ _ hd

/-- With enough fuel, the digit list evaluates back to the number. -/
lemma decVal_decDigits : ∀ (fuel n : Nat), n ≤ fuel → decVal (decDigits fuel n) = n := by
  intro fuel
  induction fuel with
  | zero =>
    intro n hn
    have : n = 0 := by omega
    subst this
    rfl
  | succ fuel ih =>
    intro n hn
    match n with
    | 0 => rfl
    | m + 1 =>
      have hdiv : (m + 1) / 10 ≤ fuel := by
        have := Nat.div_lt_self (Nat.succ_pos m) (by omega : 1 < 10)
        omega
      have hrec := ih ((m + 1) / 10) hdiv
      simp only [decDigits, decVal, List.foldr_cons]
      unfold decVal at hrec
      rw [hrec]
      omega

/-- Distinct digits below ten render as distinct characters. -/
lemma digitChar_inj : ∀ a b : Fin 10,
    Char.ofNat (48 + a.val) = Char.ofNat (48 + b.val) → a = b := by decide

/-- Rendering digit lists (all digits below ten) is injective. -/
lemma map_digitChar_inj : ∀ (l1 l2 : List Nat),
    (∀ d ∈ l1, d < 10) → (∀ d ∈ l2, d < 10) →
    l1.map (fun d => Char.ofNat (48 + d)) = l2.map (fun d => Char.ofNat (48 + d)) →
    l1 = l2 := by
  intro l1
  induction l1 with
  | nil =>
    intro l2 _ _ h
    cases l2 <;> simp_all
  | cons a t ih =>
    intro l2 h1 h2 h
    cases l2 with
    | nil => simp at h
    | cons b t2 =>
      simp only [List.map_cons, List.cons.injEq] at h
      obtain ⟨hab, ht⟩ := h
      have ha : a < 10 := h1 a (List.mem_cons_self _ _)
      have hb : b < 10 := h2 b (List.mem_cons_self _ _)
      have hfin : (⟨a, ha⟩ : Fin 10) = ⟨b, hb⟩ := digitChar_inj _ _ hab
      have hab2 : a = b := congrArg Fin.val hfin
      subst hab2
      rw [ih t2 (fun d hd => h1 d (List.mem_cons_of_mem _ hd))
        (fun d hd => h2 d (List.mem_cons_of_mem _ hd)) ht]

/-- The decimal numeral function is injective. -/
lemma decString_inj : ∀ (m n : Nat), decString m = decString n → m = n := by
  intro m n h
  have h2 : ((decDigits m m).map (fun d => Char.ofNat (48 + d))).reverse
      = ((decDigits n n).map (fun d => Char.ofNat (48 + d))).reverse :=
    congrArg String.data h
  have h3 := List.reverse_injective h2
  have h4 := map_digitChar_inj _ _ (decDigits_lt_ten m m) (decDigits_lt_ten n n) h3
  calc m = decVal (decDigits m m) := (decVal_decDigits m m le_rfl).symm
    _ = decVal (decDigits n n) := by rw [h4]
    _ = n := decVal_decDigits n n le_rfl

/-- Collision candidates for the same base path are pairwise distinct
across counters. -/
lemma candidatePath_inj {dir : List String} {stem : String} {j k : Nat}
    (h : candidatePath dir stem j = candidatePath dir stem k) : j = k := by
  unfold candidatePath at h
  have h1 : stem ++ "_" ++ decString j ++ ".lua"
      = stem ++ "_" ++ decString k ++ ".lua" := by
    have := List.append_cancel_left h
    simpa using this
  have h2 : ((stem.data ++ "_".data) ++ (decString j).data) ++ ".lua".data
      = ((stem.data ++ "_".data) ++ (decString k).data) ++ ".lua".data := by
    have := congrArg String.data h1
    simpa [String.data_append] using this
  have h3 := List.append_cancel_right h2
  have h4 := List.append_cancel_left h3
  have h5 : decString j = decString k := by
    cases hj : decString j with
    | mk dj =>
      cases hk : decString k with
      | mk dk =>
        rw [hj, hk] at h4
        simp only at h4
        rw [h4]
  exact decString_inj _ _ h5

/-! ## Collision resolution (the while loop of lines 130-136) -/

/-- `pathExists` as membership in the combined path list. -/
lemma pathExists_iff (st : ExtractState) (p : List String) :
    pathExists st p ↔ p ∈ st.fsFiles.map Prod.fst ++ st.fsDirs := by
  simp [pathExists]

/-- The loop counter never decreases, and every counter passed over was
occupied. -/
lemma suffixCounter_min (st : ExtractState) (dir : List String) (stem : String) :
    ∀ (fuel counter : Nat),
      counter ≤ suffixCounter st dir stem fuel counter ∧
      ∀ j, counter ≤ j → j < suffixCounter st dir stem fuel counter →
        pathExists st (candidatePath dir stem j) := by
  intro fuel
  induction fuel with
  | zero =>
    intro counter
    refine ⟨le_rfl, ?_⟩
    intro j h1 h2
    simp only [suffixCounter] at h2
    omega
  | succ fuel ih =>
    intro counter
    by_cases h : pathExists st (candidatePath dir stem counter)
    · have h1 := (ih (counter + 1)).1
      have h2 := (ih (counter + 1)).2
      constructor
      · simp only [suffixCounter, if_pos h]
        omega
      · intro j hj1 hj2
        simp only [suffixCounter, if_pos h] at hj2
        rcases Nat.eq_or_lt_of_le hj1 with rfl | hlt
        · exact h
        · exact h2 j hlt hj2
    · constructor
      · simp [suffixCounter, if_neg h]
      · intro j hj1 hj2
        simp only [suffixCounter, if_neg h] at hj2
        omega

/-- If fewer counters in the scanned window are occupied than the fuel
allows, the loop stops at a free candidate. -/
lemma suffixCounter_free (st : ExtractState) (dir : List String) (stem : String) :
    ∀ (fuel counter : Nat),
      (List.range' counter fuel).countP
          (fun j => decide (pathExists st (candidatePath dir stem j))) < fuel →
      ¬ pathExists st (candidatePath dir stem (suffixCounter st dir stem fuel counter)) := by
  intro fuel
  induction fuel with
  | zero =>
    intro counter h
    omega
  | succ fuel ih =>
    intro counter h
    by_cases hc : pathExists st (candidatePath dir stem counter)
    · simp only [suffixCounter, if_pos hc]
      apply ih (counter + 1)
      have hr : List.range' counter (fuel + 1) = counter :: List.range' (counter + 1) fuel := rfl
      have hcb : decide (pathExists st (candidatePath dir stem counter)) = true := by
        simpa using hc
      rw [hr, List.countP_cons] at h
      simp only [hcb, if_true] at h
      omega
    · simp only [suffixCounter, if_neg hc]
      exact hc

/-- Pigeonhole bound: among the `n + 1` counters `1, …, n + 1` (where
`n` is the number of existing paths) at most `n` candidates can be
occupied, because distinct counters give distinct candidate paths. -/
lemma countP_candidates_lt (st : ExtractState) (dir : List String) (stem : String) :
    (List.range' 1 (st.fsFiles.length + st.fsDirs.length + 1)).countP
        (fun j => decide (pathExists st (candidatePath dir stem j))) <
      st.fsFiles.length + st.fsDirs.length + 1 := by
  set n := st.fsFiles.length + st.fsDirs.length with hn
  set L := st.fsFiles.map Prod.fst ++ st.fsDirs with hL
  have hLlen : L.length = n := by
    simp [hL, hn]
  set l := List.range' 1 (n + 1) with hl
  set p : Nat → Bool := fun j => decide (pathExists st (candidatePath dir stem j)) with hp
  have hcount : l.countP p = (l.filter p).length := List.countP_eq_length_filter _ _
  have hnodup : (l.filter p).Nodup := by
    apply List.Nodup.filter
    rw [hl]
    exact List.nodup_range' 1 (n + 1)
  have hmapnodup : ((l.filter p).map (candidatePath dir stem)).Nodup := by
    apply List.Nodup.map_on _ hnodup
    intro x _ y _ hxy
    exact candidatePath_inj hxy
  have hsubset : ((l.filter p).map (candidatePath dir stem)) ⊆ L := by
    intro x hx
    simp only [List.mem_map] at hx
    obtain ⟨j, hj, rfl⟩ := hx
    have hpj := List.of_mem_filter hj
    rw [hp] at hpj
    simp only [decide_eq_true_eq] at hpj
    rw [pathExists_iff] at hpj
    exact hpj
  have hle := (hmapnodup.subperm hsubset).length_le
  rw [List.length_map] at hle
  omega

/-- The resolved path never collides with an existing path. -/
lemma resolveCollision_not_exists (st : ExtractState) (dir : List String) (stem : String) :
    ¬ pathExists st (resolveCollision st dir stem) := by
  show ¬ pathExists st
    (if pathExists st (dir ++ [stem ++ ".lua"]) then
      candidatePath dir stem
        (suffixCounter st dir stem (st.fsFiles.length + st.fsDirs.length + 1) 1)
    else dir ++ [stem ++ ".lua"])
  by_cases h : pathExists st (dir ++ [stem ++ ".lua"])
  · rw [if_pos h]
    exact suffixCounter_free st dir stem (st.fsFiles.length + st.fsDirs.length + 1) 1
      (countP_candidates_lt st dir stem)
  · rw [if_neg h]
    exact h

/-- The resolved path always lives directly in the requested directory. -/
lemma resolveCollision_shape (st : ExtractState) (dir : List String) (stem : String) :
    ∃ fname, resolveCollision st dir stem = dir ++ [fname] := by
  show ∃ fname, (if pathExists st (dir ++ [stem ++ ".lua"]) then
      candidatePath dir stem
        (suffixCounter st dir stem (st.fsFiles.length + st.fsDirs.length + 1) 1)
    else dir ++ [stem ++ ".lua"]) = dir ++ [fname]
  by_cases h : pathExists st (dir ++ [stem ++ ".lua"])
  · rw [if_pos h]
    exact ⟨_, rfl⟩
  · rw [if_neg h]
    exact ⟨stem ++ ".lua", rfl⟩

/-- Full characterization of collision resolution: a free base path is
kept unsuffixed; an occupied one gets `_k` for the FIRST unused counter
`k ≥ 1`, every smaller counter being occupied. -/
lemma resolveCollision_spec (st : ExtractState) (dir : List String) (stem : String) :
    (¬ pathExists st (dir ++ [stem ++ ".lua"]) →
        resolveCollision st dir stem = dir ++ [stem ++ ".lua"]) ∧
    (pathExists st (dir ++ [stem ++ ".lua"]) →
        ∃ k, 1 ≤ k ∧ resolveCollision st dir stem = candidatePath dir stem k ∧
          ¬ pathExists st (candidatePath dir stem k) ∧
          ∀ j, 1 ≤ j → j < k → pathExists st (candidatePath dir stem j)) := by
  constructor
  · intro h
    show (if pathExists st (dir ++ [stem ++ ".lua"]) then
        candidatePath dir stem
          (suffixCounter st dir stem (st.fsFiles.length + st.fsDirs.length + 1) 1)
      else dir ++ [stem ++ ".lua"]) = dir ++ [stem ++ ".lua"]
    rw [if_neg h]
  · intro h
    refine ⟨suffixCounter st dir stem (st.fsFiles.length + st.fsDirs.length + 1) 1,
      (suffixCounter_min st dir stem _ 1).1, ?_, ?_, ?_⟩
    · show (if pathExists st (dir ++ [stem ++ ".lua"]) then
          candidatePath dir stem
            (suffixCounter st dir stem (st.fsFiles.length + st.fsDirs.length + 1) 1)
        else dir ++ [stem ++ ".lua"]) = _
      rw [if_pos h]
    · exact suffixCounter_free st dir stem _ 1 (countP_candidates_lt st dir stem)
    · exact fun j hj1 hj2 => (suffixCounter_min st dir stem _ 1).2 j hj1 hj2

/-! ## Step lemmas for the materializer -/

/-- `scriptTarget` leaves files and records alone, returns a directory
under the base directory, and adds at most the prefixes of that
directory (plus one `folder_structure` entry). -/
lemma scriptTarget_spec (st : ExtractState) (base_dir : List String)
    (item_name : String) (pfs : List String) :
    ∃ rest,
      (scriptTarget st base_dir item_name pfs).2.1 = base_dir ++ rest ∧
      (scriptTarget st base_dir item_name pfs).1.fsFiles = st.fsFiles ∧
      (scriptTarget st base_dir item_name pfs).1.scripts_found = st.scripts_found ∧
      ((scriptTarget st base_dir item_name pfs).1.fsDirs = st.fsDirs ∨
        (scriptTarget st base_dir item_name pfs).1.fsDirs =
          prefixesOf (base_dir ++ rest) ++ st.fsDirs) ∧
      ((scriptTarget st base_dir item_name pfs).1.folder_structure = st.folder_structure ∨
        (scriptTarget st base_dir item_name pfs).1.folder_structure =
          st.folder_structure ++ [base_dir ++ rest]) := by
  match pfs with
  | [] =>
    exact ⟨[], by simp [scriptTarget], rfl, rfl, Or.inl rfl, Or.inl rfl⟩
  | [a] =>
    exact ⟨[], by simp [scriptTarget], rfl, rfl, Or.inl rfl, Or.inl rfl⟩
  | a :: b :: t =>
    exact ⟨(a :: b :: t).dropLast.map clean_name, rfl, rfl, rfl, Or.inr rfl, Or.inr rfl⟩

/-- The write phase appends exactly one file (with the given contents)
at a fresh path directly inside `dir`, creates the prefixes of `dir`,
and appends one record. -/
lemma writeFilePhase_spec (st1 : ExtractState) (dir : List String) (stem : String)
    (src : String) (mkRec : List String → ScriptRecord) :
    ∃ fname,
      (writeFilePhase st1 dir stem src mkRec).fsFiles
        = st1.fsFiles ++ [(dir ++ [fname], src)] ∧
      (writeFilePhase st1 dir stem src mkRec).scripts_found
        = st1.scripts_found ++ [mkRec (dir ++ [fname])] ∧
      (writeFilePhase st1 dir stem src mkRec).fsDirs
        = prefixesOf dir ++ st1.fsDirs ∧
      (writeFilePhase st1 dir stem src mkRec).folder_structure
        = st1.folder_structure ∧
      ¬ pathExists st1 (dir ++ [fname]) := by
  obtain ⟨fname, hshape⟩ := resolveCollision_shape st1 dir stem
  have hfresh := resolveCollision_not_exists st1 dir stem
  rw [hshape] at hfresh
  refine ⟨fname, ?_, ?_, ?_, rfl, hfresh⟩
  · show st1.fsFiles ++ [(resolveCollision st1 dir stem, src)]
      = st1.fsFiles ++ [(dir ++ [fname], src)]
    rw [hshape]
  · show st1.scripts_found ++ [mkRec (resolveCollision st1 dir stem)]
      = st1.scripts_found ++ [mkRec (dir ++ [fname])]
    rw [hshape]
  · show prefixesOf (resolveCollision st1 dir stem).dropLast ++ st1.fsDirs
      = prefixesOf dir ++ st1.fsDirs
    rw [hshape, List.dropLast_concat]

/-- The whole script branch: exactly one new file with the source text
verbatim, at a path fresh with respect to the incoming state, below the
base directory; directories grow only by prefixes of the directory of
the file; at most one `folder_structure` entry. -/
lemma writeScript_spec (st : ExtractState) (item_name item_cls service_name : String)
    (base_dir path_from_service : List String) (src : String) :
    ∃ rest fname rec,
      (writeScript st item_name item_cls service_name base_dir path_from_service src).fsFiles
        = st.fsFiles ++ [(base_dir ++ rest ++ [fname], src)] ∧
      (writeScript st item_name item_cls service_name base_dir path_from_service src).scripts_found
        = st.scripts_found ++ [rec] ∧
      (∀ d, d ∈ (writeScript st item_name item_cls service_name base_dir path_from_service src).fsDirs ↔
          d ∈ prefixesOf (base_dir ++ rest) ∨ d ∈ st.fsDirs) ∧
      ((writeScript st item_name item_cls service_name base_dir path_from_service src).folder_structure
          = st.folder_structure ∨
        (writeScript st item_name item_cls service_name base_dir path_from_service src).folder_structure
          = st.folder_structure ++ [base_dir ++ rest]) ∧
      base_dir ++ rest ++ [fname] ∉ st.fsFiles.map Prod.fst ∧
      base_dir ++ rest ++ [fname] ∉ st.fsDirs := by
  obtain ⟨rest, hdir, hfiles1, hrecs1, hdirs1, hfolds1⟩ :=
    scriptTarget_spec st base_dir item_name
      (rewriteStarterPlayer service_name path_from_service)
  obtain ⟨fname, hf, hr, hd, hfold, hfresh⟩ := writeFilePhase_spec
    (scriptTarget st base_dir item_name
      (rewriteStarterPlayer service_name path_from_service)).1
    (scriptTarget st base_dir item_name
      (rewriteStarterPlayer service_name path_from_service)).2.1
    (scriptTarget st base_dir item_name
      (rewriteStarterPlayer service_name path_from_service)).2.2
    src
    (fun file_path =>
      { name := item_name, type := item_cls, path := file_path,
        service := service_name,
        full_path := service_name ::
          rewriteStarterPlayer service_name path_from_service })
  have hws : writeScript st item_name item_cls service_name base_dir path_from_service src
      = writeFilePhase
          (scriptTarget st base_dir item_name
            (rewriteStarterPlayer service_name path_from_service)).1
          (scriptTarget st base_dir item_name
            (rewriteStarterPlayer service_name path_from_service)).2.1
          (scriptTarget st base_dir item_name
            (rewriteStarterPlayer service_name path_from_service)).2.2
          src
          (fun file_path =>
            { name := item_name, type := item_cls, path := file_path,
              service := service_name,
              full_path := service_name ::
                rewriteStarterPlayer service_name path_from_service }) := rfl
  rw [hdir] at hf hr hd hfold hfresh hws
  rw [hfiles1] at hf
  rw [hrecs1] at hr
  refine ⟨rest, fname,
    { name := item_name, type := item_cls, path := base_dir ++ rest ++ [fname],
      service := service_name,
      full_path := service_name ::
        rewriteStarterPlayer service_name path_from_service },
    ?_, ?_, ?_, ?_, ?_, ?_⟩
  · rw [hws, hf]
  · rw [hws, hr]
  · intro d
    rw [hws, hd]
    rcases hdirs1 with h1 | h1 <;> rw [h1] <;> simp [List.mem_append]
  · rw [hws, hfold]
    rcases hfolds1 with h1 | h1
    · exact Or.inl h1
    · exact Or.inr h1
  · intro hmem
    apply hfresh
    rw [pathExists_iff, List.mem_append, hfiles1]
    exact Or.inl hmem
  · intro hmem
    apply hfresh
    rw [pathExists_iff, List.mem_append]
    rcases hdirs1 with h1 | h1
    · rw [h1]
      exact Or.inr hmem
    · rw [h1]
      exact Or.inr (List.mem_append_right _ hmem)

/-- The Folder branch: no file, no record; with a non-empty path it
creates the sanitized directory chain under the base directory and
records it in `folder_structure`. -/
lemma processFolder_spec (st : ExtractState) (base_dir path_from_service : List String) :
    processFolder st base_dir path_from_service = st ∨
    ∃ rest, rest ≠ [] ∧
      (processFolder st base_dir path_from_service).fsFiles = st.fsFiles ∧
      (processFolder st base_dir path_from_service).scripts_found = st.scripts_found ∧
      (∀ d, d ∈ (processFolder st base_dir path_from_service).fsDirs ↔
          d ∈ prefixesOf (base_dir ++ rest) ∨ d ∈ st.fsDirs) ∧
      (processFolder st base_dir path_from_service).folder_structure
        = st.folder_structure ++ [base_dir ++ rest] := by
  match path_from_service with
  | [] => exact Or.inl rfl
  | a :: t =>
    refine Or.inr ⟨(a :: t).map clean_name, by simp, rfl, rfl, ?_, rfl⟩
    intro d
    show d ∈ prefixesOf (base_dir ++ (a :: t).map clean_name) ++ st.fsDirs ↔ _
    simp [List.mem_append]

/-- Case analysis for one loop-body step: the state is unchanged, or a
script was written (one fresh file below a base directory plus its
parent directories), or a folder chain was created below a base
directory. -/
lemma processItem_cases (st : ExtractState) (it : Item) (ch : List Item) :
    processItem st it ch = st ∨
    (∃ base rest fname src rec, base ∈ baseDirs ∧
      (processItem st it ch).fsFiles = st.fsFiles ++ [(base ++ rest ++ [fname], src)] ∧
      (processItem st it ch).scripts_found = st.scripts_found ++ [rec] ∧
      (∀ d, d ∈ (processItem st it ch).fsDirs ↔
        d ∈ prefixesOf (base ++ rest) ∨ d ∈ st.fsDirs) ∧
      ((processItem st it ch).folder_structure = st.folder_structure ∨
        (processItem st it ch).folder_structure = st.folder_structure ++ [base ++ rest]) ∧
      base ++ rest ++ [fname] ∉ st.fsFiles.map Prod.fst ∧
      base ++ rest ++ [fname] ∉ st.fsDirs) ∨
    (∃ base rest, base ∈ baseDirs ∧ rest ≠ [] ∧
      (processItem st it ch).fsFiles = st.fsFiles ∧
      (processItem st it ch).scripts_found = st.scripts_found ∧
      (∀ d, d ∈ (processItem st it ch).fsDirs ↔
        d ∈ prefixesOf (base ++ rest) ∨ d ∈ st.fsDirs) ∧
      (processItem st it ch).folder_structure = st.folder_structure ++ [base ++ rest]) := by
  rcases hn : itemName it with _ | n
  · exact Or.inl (by simp [processItem, hn])
  rcases hfp : findParentService ch with ⟨o, p0⟩
  rcases o with _ | svc
  · exact Or.inl (by simp [processItem, hn, hfp])
  have hsvc := findParentService_mem hfp
  obtain ⟨base, hlk, hbase⟩ := serviceMapping_lookup_exists hsvc
  by_cases hcls : it.cls ∈ scriptClasses
  · rcases hsrc : itemSource it with _ | src
    · exact Or.inl (by simp [processItem, hn, hfp, hlk, hcls, hsrc])
    · have heq : processItem st it ch = writeScript st n it.cls svc base p0 src := by
        simp [processItem, hn, hfp, hlk, hcls, hsrc]
      obtain ⟨rest, fname, rec, h1, h2, h3, h4, h5, h6⟩ :=
        writeScript_spec st n it.cls svc base p0 src
      rw [heq]
      exact Or.inr (Or.inl ⟨base, rest, fname, src, rec, hbase, h1, h2, h3, h4, h5, h6⟩)
  · by_cases hfol : it.cls = "Folder"
    · have heq : processItem st it ch = processFolder st base p0 := by
        have hns : ("Folder" : String) ∉ scriptClasses := by decide
        simp [processItem, hn, hfp, hlk, hfol, hns]
      rcases processFolder_spec st base p0 with h | ⟨rest, hne, h1, h2, h3, h4⟩
      · exact Or.inl (heq.trans h)
      · rw [heq]
        exact Or.inr (Or.inr ⟨base, rest, hbase, hne, h1, h2, h3, h4⟩)
    · exact Or.inl (by simp [processItem, hn, hfp, hlk, hcls, hfol])

/-! ## Round-trip identity (C2) -/

/-- C2: for every script-class node with a resolvable service and
non-empty source text, the loop body creates exactly one output file,
whose contents equal the source text byte-for-byte (the state gains
exactly one `(path, contents)` pair, with `contents = src` unchanged,
and no existing file is touched). -/
theorem script_roundtrip (st : ExtractState) (it : Item) (ch : List Item)
    (n svc : String) (p0 : List String) (src : String)
    (hn : itemName it = some n) (hcls : it.cls ∈ scriptClasses)
    (hfp : findParentService ch = (some svc, p0)) (hsrc : itemSource it = some src) :
    ∃ fp, (processItem st it ch).fsFiles = st.fsFiles ++ [(fp, src)] := by
  have hsvc := findParentService_mem hfp
  obtain ⟨base, hlk, -⟩ := serviceMapping_lookup_exists hsvc
  have heq : processItem st it ch = writeScript st n it.cls svc base p0 src := by
    simp [processItem, hn, hfp, hlk, hcls, hsrc]
  obtain ⟨rest, fname, rec, h1, -, -, -, -, -⟩ :=
    writeScript_spec st n it.cls svc base p0 src
  exact ⟨base ++ rest ++ [fname], by rw [heq, h1]⟩

/-- C2 witness: the `ModuleScript` named `Utils` with source `-- a`
under `ReplicatedStorage` produces exactly one new file containing
`-- a`. -/
theorem script_roundtrip_witness :
    ∃ fp, (processItem initState c2U [c2U, c2Rs]).fsFiles
      = initState.fsFiles ++ [(fp, "-- a")] :=
  script_roundtrip initState c2U [c2U, c2Rs] "Utils" "ReplicatedStorage" ["Utils"]
    "-- a" (by decide) (by decide) (by decide) (by decide)

/-! ## Run-level invariants -/

/-- Invariant preservation along the extraction fold. -/
lemma foldl_processItem_preserve (P : ExtractState → Prop)
    (hstep : ∀ st it ch, P st → P (processItem st it ch)) :
    ∀ (l : List (Item × List Item)) (st : ExtractState), P st →
      P (l.foldl (fun s ic => processItem s ic.1 ic.2) st) := by
  intro l
  induction l with
  | nil => exact fun st h => h
  | cons x xs ih => exact fun st h => ih _ (hstep st x.1 x.2 h)

/-- One step preserves distinctness of written file paths: a new file is
only ever written at a path fresh among the existing files. -/
lemma step_nodup (st : ExtractState) (it : Item) (ch : List Item)
    (h : (st.fsFiles.map Prod.fst).Nodup) :
    ((processItem st it ch).fsFiles.map Prod.fst).Nodup := by
  rcases processItem_cases st it ch with heq |
    ⟨base, rest, fname, src, rec, hbase, h1, h2, h3, h4, h5, h6⟩ |
    ⟨base, rest, hbase, hne, h1, h2, h3, h4⟩
  · rw [heq]
    exact h
  · rw [h1, List.map_append, List.nodup_append]
    refine ⟨h, List.nodup_singleton _, ?_⟩
    intro a ha hb
    simp only [List.map_cons, List.map_nil, List.mem_singleton] at hb
    subst hb
    exact h5 ha
  · rw [h1]
    exact h

/-- Directories never disappear across a step. -/
lemma step_dirs_mono (st : ExtractState) (it : Item) (ch : List Item) :
    ∀ d ∈ st.fsDirs, d ∈ (processItem st it ch).fsDirs := by
  rcases processItem_cases st it ch with heq |
    ⟨base, rest, fname, src, rec, hbase, h1, h2, h3, h4, h5, h6⟩ |
    ⟨base, rest, hbase, hne, h1, h2, h3, h4⟩
  · rw [heq]
    exact fun d hd => hd
  · exact fun d hd => (h3 d).mpr (Or.inr hd)
  · exact fun d hd => (h3 d).mpr (Or.inr hd)

/-- One step preserves the on-demand directory invariant. -/
lemma step_dirsOnDemand (st : ExtractState) (it : Item) (ch : List Item)
    (h : dirsOnDemand st) : dirsOnDemand (processItem st it ch) := by
  obtain ⟨hfwd, hfile, hfold⟩ := h
  rcases processItem_cases st it ch with heq |
    ⟨base, rest, fname, src, rec, hbase, h1, h2, h3, h4, h5, h6⟩ |
    ⟨base, rest, hbase, hne, h1, h2, h3, h4⟩
  · rw [heq]
    exact ⟨hfwd, hfile, hfold⟩
  · refine ⟨?_, ?_, ?_⟩
    · intro d hd
      rw [h3] at hd
      rcases hd with hd | hd
      · refine Or.inr (Or.inl ⟨base ++ rest ++ [fname], src, ?_, ?_⟩)
        · rw [h1]
          exact List.mem_append_right _ (List.mem_singleton_self _)
        · rw [List.dropLast_concat]
          exact hd
      · rcases hfwd d hd with hb | ⟨fp, s, hmem, hpre⟩ | ⟨f, hmem, hpre⟩
        · exact Or.inl hb
        · exact Or.inr (Or.inl ⟨fp, s, by rw [h1]; exact List.mem_append_left _ hmem, hpre⟩)
        · refine Or.inr (Or.inr ⟨f, ?_, hpre⟩)
          rcases h4 with h4 | h4
          · rw [h4]
            exact hmem
          · rw [h4]
            exact List.mem_append_left _ hmem
    · intro fp s hmem d hd
      rw [h1, List.mem_append] at hmem
      rcases hmem with hmem | hmem
      · rw [h3]
        exact Or.inr (hfile fp s hmem d hd)
      · rw [List.mem_singleton, Prod.mk.injEq] at hmem
        obtain ⟨rfl, rfl⟩ := hmem
        rw [h3]
        left
        rw [List.dropLast_concat] at hd
        exact hd
    · intro f hmem d hd
      rcases h4 with h4 | h4
      · rw [h4] at hmem
        rw [h3]
        exact Or.inr (hfold f hmem d hd)
      · rw [h4, List.mem_append] at hmem
        rcases hmem with hmem | hmem
        · rw [h3]
          exact Or.inr (hfold f hmem d hd)
        · rw [List.mem_singleton] at hmem
          subst hmem
          rw [h3]
          exact Or.inl hd
  · refine ⟨?_, ?_, ?_⟩
    · intro d hd
      rw [h3] at hd
      rcases hd with hd | hd
      · refine Or.inr (Or.inr ⟨base ++ rest, ?_, hd⟩)
        rw [h4]
        exact List.mem_append_right _ (List.mem_singleton_self _)
      · rcases hfwd d hd with hb | ⟨fp, s, hmem, hpre⟩ | ⟨f, hmem, hpre⟩
        · exact Or.inl hb
        · exact Or.inr (Or.inl ⟨fp, s, by rw [h1]; exact hmem, hpre⟩)
        · refine Or.inr (Or.inr ⟨f, ?_, hpre⟩)
          rw [h4]
          exact List.mem_append_left _ hmem
    · intro fp s hmem d hd
      rw [h1] at hmem
      rw [h3]
      exact Or.inr (hfile fp s hmem d hd)
    · intro f hmem d hd
      rw [h4, List.mem_append] at hmem
      rcases hmem with hmem | hmem
      · rw [h3]
        exact Or.inr (hfold f hmem d hd)
      · rw [List.mem_singleton] at hmem
        subst hmem
        rw [h3]
        exact Or.inl hd

/-- The initial state (the three pre-created base directories, nothing
written) satisfies the on-demand directory invariant. -/
lemma initState_dirsOnDemand : dirsOnDemand initState := by
  refine ⟨?_, ?_, ?_⟩
  · intro d hd
    left
    have hds : initState.fsDirs =
        [["src"], ["src", "shared"], ["src"], ["src", "client"],
         ["src"], ["src", "server"]] := by decide
    rw [hds] at hd
    fin_cases hd <;> decide
  · intro fp s hmem d hd
    exact absurd hmem (List.not_mem_nil _)
  · intro f hmem d hd
    exact absurd hmem (List.not_mem_nil _)

/-- Every prefix of a path below a base directory is either `src` itself
or starts with one of the four base directories. -/
lemma prefix_of_base (base rest : List String) (hbase : base ∈ baseDirs) :
    ∀ d ∈ prefixesOf (base ++ rest), d = ["src"] ∨ d.take 2 ∈ baseDirs := by
  intro d hd
  simp only [prefixesOf, List.mem_map, List.mem_range] at hd
  obtain ⟨k, hk, rfl⟩ := hd
  rcases k with _ | k
  · left
    fin_cases hbase <;> rfl
  · right
    have hmin : min 2 (k + 1 + 1) = 2 := by omega
    rw [List.take_take, hmin]
    fin_cases hbase
    · show (["src", "server"] : List String) ∈ baseDirs
      decide
    · show (["src", "client"] : List String) ∈ baseDirs
      decide
    · show (["src", "shared"] : List String) ∈ baseDirs
      decide
    · show (["src", "workspace"] : List String) ∈ baseDirs
      decide

/-- One step preserves the four-base-directories shape of the output
tree. -/
lemma step_underBases (st : ExtractState) (it : Item) (ch : List Item)
    (h : ∀ d ∈ st.fsDirs, d = ["src"] ∨ d.take 2 ∈ baseDirs) :
    ∀ d ∈ (processItem st it ch).fsDirs, d = ["src"] ∨ d.take 2 ∈ baseDirs := by
  rcases processItem_cases st it ch with heq |
    ⟨base, rest, fname, src, rec, hbase, h1, h2, h3, h4, h5, h6⟩ |
    ⟨base, rest, hbase, hne, h1, h2, h3, h4⟩
  · rw [heq]
    exact h
  · intro d hd
    rw [h3] at hd
    rcases hd with hd | hd
    · exact prefix_of_base base rest hbase d hd
    · exact h d hd
  · intro d hd
    rw [h3] at hd
    rcases hd with hd | hd
    · exact prefix_of_base base rest hbase d hd
    · exact h d hd

/-! ## Collision handling across a run (C3) -/

/-- C3: within one run all written files have distinct paths and no file
is overwritten; a node whose computed base path is free keeps the
unsuffixed name, and a colliding node gets `_k` for the first unused
counter `k` starting at 1 (every smaller counter being occupied), in
traversal order; concretely, two `ModuleScript`s named `Utils` under
`ReplicatedStorage` yield `Utils.lua` then `Utils_1.lua`. -/
theorem no_overwrite_first_unused_suffix :
    (∀ tops : List Item, ((extractRun tops).fsFiles.map Prod.fst).Nodup) ∧
    (∀ (st : ExtractState) (dir : List String) (stem : String),
      (¬ pathExists st (dir ++ [stem ++ ".lua"]) →
          resolveCollision st dir stem = dir ++ [stem ++ ".lua"]) ∧
      (pathExists st (dir ++ [stem ++ ".lua"]) →
          ∃ k, 1 ≤ k ∧ resolveCollision st dir stem = candidatePath dir stem k ∧
            ¬ pathExists st (candidatePath dir stem k) ∧
            ∀ j, 1 ≤ j → j < k → pathExists st (candidatePath dir stem j))) ∧
    (extractRun [c3Rs]).fsFiles =
      [(["src", "shared", "Utils.lua"], "-- a"),
       (["src", "shared", "Utils_1.lua"], "-- b")] := by
  refine ⟨?_, resolveCollision_spec, by decide⟩
  intro tops
  exact foldl_processItem_preserve (fun st => (st.fsFiles.map Prod.fst).Nodup)
    step_nodup (iterItemsList tops []) initState (by decide)

/-- C3 witness: after the `Utils` run both `Utils.lua` and `Utils_1.lua`
exist, the written paths are distinct, and a further collision on the
same base path resolves to the first unused counter. -/
theorem no_overwrite_first_unused_suffix_witness :
    ((extractRun [c3Rs]).fsFiles.map Prod.fst).Nodup ∧
    (∃ k, 1 ≤ k ∧
      resolveCollision (extractRun [c3Rs]) ["src", "shared"] "Utils"
        = candidatePath ["src", "shared"] "Utils" k ∧
      ¬ pathExists (extractRun [c3Rs]) (candidatePath ["src", "shared"] "Utils" k) ∧
      ∀ j, 1 ≤ j → j < k →
        pathExists (extractRun [c3Rs]) (candidatePath ["src", "shared"] "Utils" j)) :=
  ⟨no_overwrite_first_unused_suffix.1 [c3Rs],
   (no_overwrite_first_unused_suffix.2.1 (extractRun [c3Rs]) ["src", "shared"] "Utils").2
     (by decide)⟩

/-! ## StarterPlayer rewrite rules (C4) -/

/-- C4: under `StarterPlayer` a leading `StarterPlayerScripts` segment
is dropped (children become direct children of the client base
directory) while `StarterCharacterScripts` is kept as a real subfolder;
concretely, `StarterPlayer/StarterPlayerScripts/Move` is written to
`src/client/Move.lua` and `StarterPlayer/StarterCharacterScripts/Init`
to `src/client/StarterCharacterScripts/Init.lua`, each with its exact
source text. -/
theorem starter_player_rewrite :
    (∀ rest : List String,
        rewriteStarterPlayer "StarterPlayer" ("StarterPlayerScripts" :: rest) = rest) ∧
    (∀ rest : List String,
        rewriteStarterPlayer "StarterPlayer" ("StarterCharacterScripts" :: rest)
          = "StarterCharacterScripts" :: rest) ∧
    (extractRun [c4Sp]).fsFiles = [(["src", "client", "Move.lua"], "-- move")] ∧
    (extractRun [c4Sp2]).fsFiles
      = [(["src", "client", "StarterCharacterScripts", "Init.lua"], "-- init")] := by
  refine ⟨?_, ?_, by decide, by decide⟩
  · intro rest
    show (if ("StarterPlayer" : String) = "StarterPlayer" then
        if ("StarterPlayerScripts" : String) = "StarterPlayerScripts" then rest
        else "StarterPlayerScripts" :: rest
      else "StarterPlayerScripts" :: rest) = rest
    rw [if_pos rfl, if_pos rfl]
  · intro rest
    show (if ("StarterPlayer" : String) = "StarterPlayer" then
        if ("StarterCharacterScripts" : String) = "StarterPlayerScripts" then rest
        else "StarterCharacterScripts" :: rest
      else "StarterCharacterScripts" :: rest) = "StarterCharacterScripts" :: rest
    rw [if_pos rfl, if_neg (by decide)]

/-! ## Directory tree shape (C6) -/

/-- C6 counterexample: a `Model` named `M` (neither a script class nor a
`Folder`) under `Workspace` with a `Script` child IS represented as the
directory `src/workspace/M` in the output (and that directory is
non-empty: it holds `S.lua`), contradicting the claim that such
instances are not represented as directories at all. -/
theorem model_instance_gets_directory :
    ["src", "workspace", "M"] ∈ (extractRun [c6Ws]).fsDirs ∧
    c6M.cls = "Model" ∧ c6M.cls ∉ scriptClasses ∧ c6M.cls ≠ "Folder" ∧
    (["src", "workspace", "M", "S.lua"], "x") ∈ (extractRun [c6Ws]).fsFiles := by
  refine ⟨by decide, rfl, by decide, by decide, by decide⟩

/-- C6 (amended): directories are created exactly on demand — every
directory of the output is a pre-seeded base-directory prefix, an
ancestor of a written script file, or an ancestor of a recorded Folder
chain; conversely every such ancestor exists as a directory. Instances
that are neither scripts nor folders (and the segments that stand for
them) get a directory exactly when a descendant script or folder needs
them as a path segment. -/
theorem dirs_exactly_on_demand : ∀ tops : List Item, dirsOnDemand (extractRun tops) :=
  fun tops =>
    foldl_processItem_preserve dirsOnDemand step_dirsOnDemand
      (iterItemsList tops []) initState initState_dirsOnDemand

/-- C6 witness: the on-demand invariant holds for the concrete
`Workspace/Model/Script` run. -/
theorem dirs_exactly_on_demand_witness : dirsOnDemand (extractRun [c6Ws]) :=
  dirs_exactly_on_demand [c6Ws]

/-! ## First-level output directories (C8) -/

/-- C8 counterexample: a run with content only under
`ServerScriptService` creates `src/server`, `src/client` and
`src/shared`, but NOT `src/workspace` — the output does not have exactly
four first-level subdirectories. -/
theorem workspace_dir_missing :
    ["src", "workspace"] ∉ (extractRun [c8Sss]).fsDirs ∧
    ["src", "server"] ∈ (extractRun [c8Sss]).fsDirs ∧
    ["src", "client"] ∈ (extractRun [c8Sss]).fsDirs ∧
    ["src", "shared"] ∈ (extractRun [c8Sss]).fsDirs ∧
    (extractRun [c8Sss]).fsFiles ≠ [] := by decide

/-- C8 (amended): after every run the output has the three first-level
subdirectories `server`, `client` and `shared` (pre-created
unconditionally), and every directory is `src` itself or lies under one
of the four base-directory tags (`workspace` appears only on demand). -/
theorem three_bases_always_workspace_on_demand :
    ∀ tops : List Item,
      (["src", "server"] ∈ (extractRun tops).fsDirs ∧
       ["src", "client"] ∈ (extractRun tops).fsDirs ∧
       ["src", "shared"] ∈ (extractRun tops).fsDirs) ∧
      ∀ d ∈ (extractRun tops).fsDirs, d = ["src"] ∨ d.take 2 ∈ baseDirs := by
  intro tops
  constructor
  · exact foldl_processItem_preserve
      (fun st => ["src", "server"] ∈ st.fsDirs ∧ ["src", "client"] ∈ st.fsDirs ∧
        ["src", "shared"] ∈ st.fsDirs)
      (fun st it ch h => ⟨step_dirs_mono st it ch _ h.1,
        step_dirs_mono st it ch _ h.2.1, step_dirs_mono st it ch _ h.2.2⟩)
      (iterItemsList tops []) initState (by decide)
  · exact foldl_processItem_preserve
      (fun st => ∀ d ∈ st.fsDirs, d = ["src"] ∨ d.take 2 ∈ baseDirs)
      step_underBases (iterItemsList tops []) initState (by decide)

/-- C8 witness: for the concrete server-only run, the three base
directories exist, and `src/server` itself satisfies the shape
property. -/
theorem three_bases_always_workspace_on_demand_witness :
    ["src", "server"] ∈ (extractRun [c8Sss]).fsDirs ∧
    (["src", "server"] = ["src"] ∨ (["src", "server"] : List String).take 2 ∈ baseDirs) :=
  ⟨(three_bases_always_workspace_on_demand [c8Sss]).1.1,
   (three_bases_always_workspace_on_demand [c8Sss]).2 ["src", "server"] (by decide)⟩

end RobloxExtract
